import Mathlib

/-!
Shallow embedding of the cross-process session registry of the
attention-monitor extension: the per-file session store and registry
(sessionManager.ts, one-file-per-session design), the liveness-based
session cleaner (sessionCleaner.ts), the workspace filter of the
extension entry point (extension.ts), the cross-window focus-request
poller (crossWindowIpc.ts) and the terminal affinity tracker
(terminalTracker.ts).

JavaScript string primitives used by that code (startsWith, endsWith,
toLowerCase, the global double-backslash replacement, the digit test of
the ppid regex) are modelled over the character list of a string so that
every definition evaluates inside the kernel.  toLowerCase is modelled
on the ASCII fragment, which is the fragment Lean's own Char.toLower
implements as well and the only one exercised by path comparison.
-/

/-- Truthiness of an optional string as JavaScript sees it: a missing
value and the empty string are both falsy. -/
def strTruthy : Option String → Bool
  | none => false
  | some s => !s.data.isEmpty

/-- Lower-casing of one character on the ASCII range. -/
def charLower (c : Char) : Char :=
  if 'A' ≤ c ∧ c ≤ 'Z' then Char.ofNat (c.toNat + 32) else c

/-- Models JavaScript toLowerCase on the ASCII fragment. -/
def jsToLowerCase (s : String) : String :=
  ⟨s.data.map charLower⟩

/-- Models String.prototype.startsWith through the character lists. -/
def jsStartsWith (s p : String) : Bool :=
  p.data.isPrefixOf s.data

/-- Models String.prototype.endsWith through the character lists. -/
def jsEndsWith (s suffix : String) : Bool :=
  suffix.data.isSuffixOf s.data

/-- Models the global replacement of two literal backslashes by one,
working left to right without overlap, exactly as the /\\\\/g regex
replacement does. -/
def unescapeBackslashesAux : List Char → List Char
  | [] => []
  | '\\' :: '\\' :: rest => '\\' :: unescapeBackslashesAux rest
  | c :: rest => c :: unescapeBackslashesAux rest

/-- String form of the double-backslash unescaping. -/
def unescapeBackslashes (s : String) : String :=
  ⟨unescapeBackslashesAux s.data⟩

/-- Decimal digit test, the character class of the ppid regex. -/
def isDigitChar (c : Char) : Bool :=
  '0' ≤ c ∧ c ≤ '9'

/-- Value of a decimal digit string, as parseInt reads an all-digit
match. -/
def digitsVal (cs : List Char) : Nat :=
  cs.foldl (fun n c => 10 * n + (c.toNat - '0'.toNat)) 0

/-- Strict lexicographic order on character lists; ISO-8601 UTC
timestamps of equal shape compare chronologically under it, which is the
order the spec means by one lastUpdate being greater than another. -/
def lexLtChars : List Char → List Char → Bool
  | [], [] => false
  | [], _ :: _ => true
  | _ :: _, [] => false
  | a :: as, b :: bs => if a < b then true else if b < a then false else lexLtChars as bs

/-- Strict string order used to compare lastUpdate timestamps. -/
def strLt (a b : String) : Bool :=
  lexLtChars a.data b.data

/-- Session record exactly as JSON.parse hands it to the loader: every
field of the file may be absent. -/
structure Session where
  id : Option String := none
  status : Option String := none
  reason : Option String := none
  cwd : Option String := none
  lastUpdate : Option String := none
  deriving Repr, DecidableEq

/-- Contents of one entry of the sessions directory: text that parses
into a session object, or text on which JSON.parse throws (partial
write, corruption). -/
inductive FileContent where
  | parsed (s : Session)
  | corrupt
  deriving Repr, DecidableEq

/-- One file of the sessions directory. -/
structure DiskFile where
  name : String
  content : FileContent
  deriving Repr, DecidableEq

namespace SessionManager

/-- Models this.sessions.set(session.id, session) on the insertion
ordered map: overwrite in place when the id is present, append
otherwise. -/
def mapSet (m : List Session) (s : Session) : List Session :=
  if m.any (fun x => x.id == s.id) then
    m.map (fun x => if x.id == s.id then s else x)
  else m ++ [s]

/-- Body of the per-file loop of loadSessions: skip names not ending in
.json, skip files JSON.parse throws on, keep a parsed record only when
its id and status are truthy. -/
def loadStep (acc : List Session) (f : DiskFile) : List Session :=
  if jsEndsWith f.name ".json" then
    match f.content with
    | .parsed s => if strTruthy s.id && strTruthy s.status then mapSet acc s else acc
    | .corrupt => acc
  else acc

/-- Embeds loadSessions over an existing directory: the cleared map is
rebuilt by folding the per-file loop over the directory listing. -/
def loadSessionsFrom (files : List DiskFile) : List Session :=
  files.foldl loadStep []

/-- Embeds loadSessions including the missing-directory branch: an
absent directory is created (mkdirSync recursive) and the registry comes
back empty. -/
def loadSessions (dir : Option (List DiskFile)) : Option (List DiskFile) × List Session :=
  match dir with
  | none => (some [], [])
  | some files => (some files, loadSessionsFrom files)

/-- Models fs.writeFileSync: overwrite the file when present, create it
otherwise. -/
def writeFile (files : List DiskFile) (name : String) (c : FileContent) : List DiskFile :=
  if files.any (fun f => f.name == name) then
    files.map (fun f => if f.name == name then ⟨name, c⟩ else f)
  else files ++ [⟨name, c⟩]

/-- Models the unlink-if-exists step of removeSessions for one id. -/
def unlinkIfExists (files : List DiskFile) (name : String) : List DiskFile :=
  files.filter (fun f => f.name != name)

/-- Embeds removeSessions: unlink each id's file, then reload. -/
def removeSessions (files : List DiskFile) (ids : List String) : List DiskFile × List Session :=
  let files' := ids.foldl (fun d i => unlinkIfExists d (i ++ ".json")) files
  (files', loadSessionsFrom files')

/-- Embeds updateSessionStatus: find the session in the in-memory map,
overwrite its status, clear its reason, stamp lastUpdate with the
current clock reading, write the whole record to the id's file
(JSON.stringify drops the cleared reason), reload. -/
def updateSessionStatus (files : List DiskFile) (mem : List Session)
    (sessionId : String) (status : String) (now : String) :
    List DiskFile × List Session :=
  match mem.find? (fun s => s.id == some sessionId) with
  | none => (files, mem)
  | some session =>
    let s' := { session with status := some status, reason := none, lastUpdate := some now }
    let files' := writeFile files (sessionId ++ ".json") (.parsed s')
    (files', loadSessionsFrom files')

/-- Environment of the derived views: the filterByWorkspace toggle, the
open workspace folders of the window, path.resolve of the host process
and the Date parsing used by the sort comparator. -/
structure ViewEnv where
  filteringEnabled : Bool
  workspaceFolders : Option (List String)
  resolvePath : String → String
  dateMs : Option String → Int

/-- Embeds isSessionInWorkspace of SessionManager: falsy cwd and absent
workspace folder list both fail; otherwise the resolved cwd must start
with some folder path (case sensitive, one direction). -/
def isSessionInWorkspace (env : ViewEnv) (s : Session) : Bool :=
  match s.cwd with
  | none => false
  | some cwd =>
    if cwd.data.isEmpty then false
    else match env.workspaceFolders with
      | none => false
      | some folders =>
        let sessionPath := env.resolvePath cwd
        folders.any (fun folder => jsStartsWith sessionPath folder)

/-- Embeds filterByWorkspace: identity when filtering is disabled. -/
def filterByWorkspace (env : ViewEnv) (sessions : List Session) : List Session :=
  if env.filteringEnabled then sessions.filter (isSessionInWorkspace env) else sessions

/-- Embeds the most-recently-updated-first sort of the views; JavaScript
sort with the b minus a Date comparator is a stable descending sort. -/
def sortByLastUpdateDesc (env : ViewEnv) (sessions : List Session) : List Session :=
  sessions.mergeSort (fun a b => decide (env.dateMs b.lastUpdate ≤ env.dateMs a.lastUpdate))

/-- Embeds getAttentionRequired. -/
def getAttentionRequired (env : ViewEnv) (mem : List Session) : List Session :=
  filterByWorkspace env (sortByLastUpdateDesc env (mem.filter (fun s => s.status == some "attention")))

/-- Embeds getIdle. -/
def getIdle (env : ViewEnv) (mem : List Session) : List Session :=
  filterByWorkspace env (sortByLastUpdateDesc env (mem.filter (fun s => s.status == some "idle")))

/-- Embeds getRunning. -/
def getRunning (env : ViewEnv) (mem : List Session) : List Session :=
  filterByWorkspace env (sortByLastUpdateDesc env (mem.filter (fun s => s.status == some "running")))

/-- Embeds getAllSessions: the values of the map in insertion order. -/
def getAllSessions (mem : List Session) : List Session :=
  mem

end SessionManager

namespace Extension

/-- Embeds getFilteredSessions of extension.ts: global mode and an empty
cached workspace path list both return everything; otherwise keep the
sessions whose backslash-unescaped cwd, lower-cased, starts with some
lower-cased workspace path (one direction only). -/
def getFilteredSessions (mem : List Session) (globalMode : Bool)
    (cachedWorkspacePaths : List String) : List Session :=
  if globalMode then mem
  else if cachedWorkspacePaths.isEmpty then mem
  else mem.filter (fun s =>
    match s.cwd with
    | none => false
    | some cwd =>
      if cwd.data.isEmpty then false
      else
        let normalizedCwd := unescapeBackslashes cwd
        cachedWorkspacePaths.any (fun wp =>
          jsStartsWith (jsToLowerCase normalizedCwd) (jsToLowerCase wp)))

/-- Predicate written from the spec's words for the workspace filter
claim: a case-insensitive, separator-normalized path-prefix match that
is allowed in either containment direction.  Kept separate from the
code-derived filter above so the two can be compared. -/
def specWorkspaceMatch (roots : List String) (cwd : String) : Bool :=
  let normal := fun (p : String) => jsToLowerCase ⟨p.data.map (fun c => if c = '\\' then '/' else c)⟩
  roots.any (fun r => jsStartsWith (normal cwd) (normal r) || jsStartsWith (normal r) (normal cwd))

end Extension

namespace SessionCleaner

/-- Result record of cleanupNow. -/
structure CleanupResult where
  removedCount : Nat
  removedIds : List String
  deriving Repr, DecidableEq

/-- Embeds extractPid: the anchored regex match of ppid-<digits>. -/
def extractPid (sessionId : String) : Option Nat :=
  let cs := sessionId.data
  if ("ppid-" : String).data.isPrefixOf cs then
    let digits := cs.drop 5
    if !digits.isEmpty && digits.all isDigitChar then some (digitsVal digits) else none
  else none

/-- Embeds checkPidsAliveWindows, the single batch platform liveness
call: when exec reports an error the promise resolves with the still
empty alive set, so a failed probe answers that nothing is alive; on
success the probed pids are filtered against the running-pid list parsed
from stdout. -/
def checkPidsAliveWindows (pids : List Nat) (execResult : Except Unit (List Nat)) : List Nat :=
  match execResult with
  | .error _ => []
  | .ok runningPids => pids.filter (fun p => runningPids.contains p)

/-- Embeds cleanupNow on the Windows batch path: collect the sessions
with an extractable pid, batch-probe them once, remove the sessions
whose pid is missing from the alive set through removeSessions, and
report the removed ids. -/
def cleanupNow (files : List DiskFile) (mem : List Session)
    (execResult : Except Unit (List Nat)) :
    (List DiskFile × List Session) × CleanupResult :=
  let pidsToCheck := mem.filterMap (fun s =>
    match s.id with
    | some i => (extractPid i).map (fun p => (i, p))
    | none => none)
  if pidsToCheck.isEmpty then ((files, mem), ⟨0, []⟩)
  else
    let alivePids := checkPidsAliveWindows (pidsToCheck.map (fun x => x.2)) execResult
    let deadSessionIds := (pidsToCheck.filter (fun x => !alivePids.contains x.2)).map (fun x => x.1)
    if deadSessionIds.isEmpty then ((files, mem), ⟨0, deadSessionIds⟩)
    else (SessionManager.removeSessions files deadSessionIds, ⟨deadSessionIds.length, deadSessionIds⟩)

end SessionCleaner

namespace CrossWindowIpc

/-- Focus request as written to the shared focus-request file. -/
structure FocusRequest where
  sessionId : String
  cwd : String
  vscodeIpcHandle : Option String := none
  windowHandle : Option String := none
  timestamp : Nat
  deriving Repr, DecidableEq

/-- Shared focus-request file as a poll sees it: a modification time and
the parse outcome of its text (none when JSON.parse throws). -/
structure FocusFile where
  request : Option FocusRequest
  mtime : Nat
  deriving Repr, DecidableEq

/-- Per-window poller state: the identity token this window has learned
for itself, the modification-time watermark of the last processed poll,
and the window's open workspace folder paths. -/
structure WindowState where
  myIpcHandle : Option String
  lastMtime : Nat
  workspaceFolders : List String
  deriving Repr, DecidableEq

/-- Open terminal of the host window, reduced to its display name. -/
structure Terminal where
  name : String
  deriving Repr, DecidableEq

/-- Externally visible steps a poll can take, in the order it takes
them. -/
inductive Action where
  | deleteFile
  | windowActivation
  | associate (sessionId : Option String) (terminal : String)
  | terminalShow (terminal : String)
  | terminalFocusCommand
  | clearAttention (sessionId : Option String)
  deriving Repr, DecidableEq

/-- Embeds the injected clearAttentionIfNeeded callback of extension.ts:
clear only when the session is in attention status. -/
def clearAttentionIfNeededActions (s : Session) : List Action :=
  if s.status == some "attention" then [Action.clearAttention s.id] else []

/-- Embeds isCwdInCurrentWorkspace: no folders means no match; otherwise
compare the backslash-unescaped, lower-cased cwd against each lower-cased
folder path, accepting containment in either direction. -/
def isCwdInCurrentWorkspace (folders : List String) (cwd : String) : Bool :=
  if folders.isEmpty then false
  else
    let normalizedCwd := jsToLowerCase (unescapeBackslashes cwd)
    folders.any (fun f =>
      let folderPath := jsToLowerCase f
      jsStartsWith normalizedCwd folderPath || jsStartsWith folderPath normalizedCwd)

/-- Embeds handleFocusRequest: look the session up by id, bring the
window to the foreground on Windows, then show and focus the matched
terminal (or the only open terminal) and clear attention. -/
def handleFocusRequest (sessions : List Session) (terminals : List Terminal)
    (matchSessionToTerminal : Session → List Terminal → Option Terminal)
    (isWin : Bool) (req : FocusRequest) : List Action :=
  match sessions.find? (fun s => s.id == some req.sessionId) with
  | none => []
  | some session =>
    let foreground := if isWin then [Action.windowActivation] else []
    if terminals.isEmpty then foreground
    else
      match matchSessionToTerminal session terminals with
      | some t =>
        foreground ++ [Action.associate session.id t.name, Action.terminalShow t.name,
          Action.terminalFocusCommand] ++ clearAttentionIfNeededActions session
      | none =>
        match terminals with
        | [t] =>
          foreground ++ [Action.terminalShow t.name, Action.terminalFocusCommand] ++
            clearAttentionIfNeededActions session
        | _ => foreground

/-- Result of one poll: the shared file afterwards, the new watermark,
and the trace of externally visible steps in order. -/
structure PollResult where
  file : Option FocusFile
  lastMtime : Nat
  trace : List Action
  deriving Repr, DecidableEq

/-- Embeds checkForFocusRequest: missing file is ignored; an unchanged
modification time is skipped; the watermark is advanced before parsing;
a parse failure is ignored; a request older than five seconds is
ignored with the file left in place; then the window decides whether it
is the target, by exact identity token comparison when both sides carry
a truthy token and by workspace containment otherwise, and a claiming
window deletes the file first and only then acts. -/
def checkForFocusRequest (w : WindowState) (file : Option FocusFile) (now : Nat)
    (sessions : List Session) (terminals : List Terminal)
    (matchSessionToTerminal : Session → List Terminal → Option Terminal)
    (isWin : Bool) : PollResult :=
  match file with
  | none => ⟨none, w.lastMtime, []⟩
  | some f =>
    if f.mtime == w.lastMtime then ⟨some f, w.lastMtime, []⟩
    else
      match f.request with
      | none => ⟨some f, f.mtime, []⟩
      | some req =>
        if now - req.timestamp > 5000 then ⟨some f, f.mtime, []⟩
        else
          let claimsRequest :=
            if strTruthy req.vscodeIpcHandle && strTruthy w.myIpcHandle then
              req.vscodeIpcHandle == w.myIpcHandle
            else
              isCwdInCurrentWorkspace w.workspaceFolders req.cwd
          if claimsRequest then
            ⟨none, f.mtime,
              Action.deleteFile ::
                handleFocusRequest sessions terminals matchSessionToTerminal isWin req⟩
          else ⟨some f, f.mtime, []⟩

end CrossWindowIpc

namespace TerminalTracker

/-- Pointwise update of a finitely supported map. -/
def mapPut {κ β : Type} [DecidableEq κ] (m : κ → Option β) (k : κ) (v : β) : κ → Option β :=
  fun x => if x = k then some v else m x

/-- Pointwise deletion from a finitely supported map. -/
def mapDrop {κ β : Type} [DecidableEq κ] (m : κ → Option β) (k : κ) : κ → Option β :=
  fun x => if x = k then none else m x

/-- The two maps of the tracker; terminals are identified by an opaque
handle modelled as a natural number. -/
structure TrackerState where
  sessionToTerminal : String → Option Nat
  terminalToSession : Nat → Option String

/-- Initial tracker: both maps empty. -/
def emptyTracker : TrackerState :=
  ⟨fun _ => none, fun _ => none⟩

/-- Embeds associate, keeping the statement order of the source: read
the terminal's old session and, when that string is truthy (present and
non-empty, the if guard of the source), delete its forward entry; then
read the session's (possibly just deleted) old terminal and, when
present, delete its backward entry (the guard tests a Terminal object,
truthy exactly when present); then set both directions. -/
def associate (st : TrackerState) (sessionId : String) (terminal : Nat) : TrackerState :=
  let s2t :=
    match st.terminalToSession terminal with
    | some oldSessionId =>
      if oldSessionId.data.isEmpty then st.sessionToTerminal
      else mapDrop st.sessionToTerminal oldSessionId
    | none => st.sessionToTerminal
  let t2s :=
    match s2t sessionId with
    | some oldTerminal => mapDrop st.terminalToSession oldTerminal
    | none => st.terminalToSession
  ⟨mapPut s2t sessionId terminal, mapPut t2s terminal sessionId⟩

/-- Embeds removeSession: drop the backward entry of the session's
terminal when one is recorded (the guard tests a Terminal object, truthy
exactly when present), then the forward entry. -/
def removeSession (st : TrackerState) (sessionId : String) : TrackerState :=
  let t2s :=
    match st.sessionToTerminal sessionId with
    | some terminal => mapDrop st.terminalToSession terminal
    | none => st.terminalToSession
  ⟨mapDrop st.sessionToTerminal sessionId, t2s⟩

/-- Embeds removeTerminal: drop the forward entry of the terminal's
session when that session id string is truthy (present and non-empty,
the if guard of the source), then the backward entry. -/
def removeTerminal (st : TrackerState) (terminal : Nat) : TrackerState :=
  let s2t :=
    match st.terminalToSession terminal with
    | some sessionId =>
      if sessionId.data.isEmpty then st.sessionToTerminal
      else mapDrop st.sessionToTerminal sessionId
    | none => st.sessionToTerminal
  ⟨s2t, mapDrop st.terminalToSession terminal⟩

/-- One call of the tracker's mutating surface. -/
inductive TrackerOp where
  | associate (sessionId : String) (terminal : Nat)
  | removeSession (sessionId : String)
  | removeTerminal (terminal : Nat)
  deriving Repr, DecidableEq

/-- Applies one call. -/
def applyOp (st : TrackerState) : TrackerOp → TrackerState
  | .associate sessionId terminal => associate st sessionId terminal
  | .removeSession sessionId => removeSession st sessionId
  | .removeTerminal terminal => removeTerminal st terminal

/-- Runs a call sequence from the initial empty tracker. -/
def runOps (ops : List TrackerOp) : TrackerState :=
  ops.foldl applyOp emptyTracker

/-- The mutual-inverse invariant of the two maps. -/
def Inv (st : TrackerState) : Prop :=
  ∀ s t, st.sessionToTerminal s = some t ↔ st.terminalToSession t = some s

/-- Every session id the backward map stores is non-empty, so each
truthiness guard of the source coincides with a presence test. -/
def NoEmptyBack (st : TrackerState) : Prop :=
  ∀ t s, st.terminalToSession t = some s → s.data.isEmpty = false

/-- A call whose stored session id cannot be the falsy empty string:
only associate introduces ids into the maps. -/
def opNonEmptySessionId : TrackerOp → Bool
  | .associate sessionId _ => !sessionId.data.isEmpty
  | .removeSession _ => true
  | .removeTerminal _ => true

end TerminalTracker

namespace SessionManager

/-- Session a directory entry contributes to the registry, when any:
the composite of the name test, the parse outcome and the truthiness
check of the load loop. -/
def goodOf (f : DiskFile) : Option Session :=
  if jsEndsWith f.name ".json" then
    match f.content with
    | .parsed s => if strTruthy s.id && strTruthy s.status then some s else none
    | .corrupt => none
  else none

end SessionManager

/-- Session of the concrete cleanup scenario of the spec. -/
def sessionPpid100 : Session :=
  ⟨some "ppid-100", some "running", none, some "/repo/a", some "2024-01-01T00:00:00Z"⟩

/-- Directory holding only the concrete scenario's file. -/
def dirPpid100 : List DiskFile :=
  [⟨"ppid-100.json", FileContent.parsed sessionPpid100⟩]

/-- Session of the no-extractable-pid scenario. -/
def namedSession : Session :=
  ⟨some "team-alpha", some "running", none, some "/repo/b", some "2024-01-01T00:00:00Z"⟩

/-- Ids of the sessions the cleaner probes: those with an extractable
pid. -/
def pidSessionIds (mem : List Session) : List String :=
  mem.filterMap (fun s => s.id.bind (fun i => (SessionCleaner.extractPid i).map (fun _ => i)))

namespace SessionCleaner

theorem foldl_unlinkIfExists_eq_filter (ids : List String) (files : List DiskFile) :
    ids.foldl (fun d i => SessionManager.unlinkIfExists d (i ++ ".json")) files
      = files.filter (fun f => !((ids.map (fun i => i ++ ".json")).contains f.name)) := by
  induction ids generalizing files with
  | nil => simp
  | cons i rest ih =>
    rw [List.foldl_cons, ih, SessionManager.unlinkIfExists, List.filter_filter]
    apply List.filter_congr
    intro f _
    by_cases h : f.name = i ++ ".json" <;> simp [h, List.contains_cons, Bool.and_comm]

theorem pidsToCheck_map_fst (mem : List Session) :
    (mem.filterMap (fun s =>
      match s.id with
      | some i => (extractPid i).map (fun p => (i, p))
      | none => none)).map (fun x => x.1) = pidSessionIds mem := by
  rw [List.map_filterMap, pidSessionIds]
  apply List.filterMap_congr
  intro s _
  cases s.id with
  | none => rfl
  | some i =>
    simp only [Option.bind_some]
    cases h : extractPid i <;> simp [h]

end SessionCleaner

/-- C1 (amended): when the batch platform liveness call itself fails,
the Windows batch check resolves with the empty alive set, so cleanupNow
treats every session with an extractable pid as dead: removedIds is
exactly the ids of the pid-bearing sessions and exactly their files are
unlinked, rather than the probe being treated as inconclusive. -/
theorem cleanupNow_probe_failure_removes_pid_sessions (files : List DiskFile) (mem : List Session) :
    ((SessionCleaner.cleanupNow files mem (Except.error ())).2).removedIds = pidSessionIds mem
    ∧ ((SessionCleaner.cleanupNow files mem (Except.error ())).1).1
        = files.filter (fun f =>
            !(((pidSessionIds mem).map (fun i => i ++ ".json")).contains f.name)) := by
  have hptc := SessionCleaner.pidsToCheck_map_fst mem
  simp only [SessionCleaner.cleanupNow, SessionCleaner.checkPidsAliveWindows]
  split
  next hempty =>
    rw [List.isEmpty_iff] at hempty
    rw [hempty] at hptc
    simp only [List.map_nil] at hptc
    simp [← hptc]
  next hne =>
    simp only [List.contains_nil, Bool.not_false, List.filter_true]
    rw [hptc]
    split
    next hdead =>
      rw [List.isEmpty_iff] at hdead
      refine ⟨rfl, ?_⟩
      rw [hdead]
      simp
    next hdead =>
      refine ⟨rfl, ?_⟩
      simp only [SessionManager.removeSessions]
      exact SessionCleaner.foldl_unlinkIfExists_eq_filter _ _

/-- C1 (counterexample): with the single running session ppid-100 on
disk and in memory, a failing platform liveness call makes cleanupNow
remove that session and unlink its file, contradicting the claim that a
failed probe removes no session and leaves every session file on disk. -/
theorem cleanupNow_probe_failure_counterexample :
    ((SessionCleaner.cleanupNow dirPpid100 (SessionManager.loadSessionsFrom dirPpid100)
        (Except.error ())).2).removedIds = ["ppid-100"]
    ∧ ((SessionCleaner.cleanupNow dirPpid100 (SessionManager.loadSessionsFrom dirPpid100)
        (Except.error ())).1).1 = [] := by
  decide

/-- C7: in the concrete scenario of the spec, with the single session
ppid-100 and a successful probe whose running-pid list does not contain
100, cleanupNow reports removedCount 1 with removedIds ppid-100, and the
file ppid-100.json no longer exists (the store and the reloaded registry
are empty). -/
theorem cleanupNow_concrete_ppid100_removed (running : List Nat)
    (h : running.contains 100 = false) :
    SessionCleaner.cleanupNow dirPpid100 (SessionManager.loadSessionsFrom dirPpid100)
        (Except.ok running)
      = (([], []), ⟨1, ["ppid-100"]⟩) := by
  have hmem : SessionManager.loadSessionsFrom dirPpid100 = [sessionPpid100] := by decide
  rw [hmem]
  simp only [SessionCleaner.cleanupNow, SessionCleaner.checkPidsAliveWindows]
  have hptc : ([sessionPpid100].filterMap (fun s =>
      match s.id with
      | some i => (SessionCleaner.extractPid i).map (fun p => (i, p))
      | none => none)) = [("ppid-100", 100)] := by decide
  rw [hptc]
  simp only [List.isEmpty_cons, List.map_cons, List.map_nil, List.filter_cons,
    List.filter_nil, List.contains_cons, List.contains_nil, h]
  decide

/-- C7 (witness): the scenario evaluated at the concrete probe answer
that no pid at all is running. -/
theorem cleanupNow_concrete_ppid100_removed_witness :
    ([] : List Nat).contains 100 = false
    ∧ SessionCleaner.cleanupNow dirPpid100 (SessionManager.loadSessionsFrom dirPpid100)
        (Except.ok [])
      = (([], []), ⟨1, ["ppid-100"]⟩) :=
  ⟨by decide, cleanupNow_concrete_ppid100_removed [] (by decide)⟩

/-- C8: a session of the registry whose id has no extractable pid is
never part of the removed set of cleanupNow, whatever the probe
answers. -/
theorem cleanupNow_skips_sessions_without_pid
    (files : List DiskFile) (mem : List Session) (execResult : Except Unit (List Nat))
    (s : Session) (i : String) (hs : s ∈ mem) (hsid : s.id = some i)
    (hid : SessionCleaner.extractPid i = none) :
    i ∉ ((SessionCleaner.cleanupNow files mem execResult).2).removedIds := by
  intro hin
  simp only [SessionCleaner.cleanupNow] at hin
  split at hin
  · exact List.not_mem_nil i hin
  · split at hin
    all_goals
    simp only [List.mem_map, List.mem_filter, List.mem_filterMap] at hin
    obtain ⟨x, ⟨⟨s', hs', hgx⟩, -⟩, hx1⟩ := hin
    cases hsid' : s'.id with
    | none => rw [hsid'] at hgx; simp at hgx
    | some i' =>
      rw [hsid'] at hgx
      simp only [Option.map_eq_some'] at hgx
      obtain ⟨p, hp, hxp⟩ := hgx
      rw [← hxp] at hx1
      simp at hx1
      rw [hx1] at hp
      rw [hid] at hp
      exact Option.noConfusion hp

/-- C8 (witness): the skip theorem applied to a registry holding one
session whose id team-alpha has no extractable pid, under a failing
probe that would have removed every pid-bearing session. -/
theorem cleanupNow_skips_sessions_without_pid_witness :
    namedSession ∈ [namedSession]
    ∧ namedSession.id = some "team-alpha"
    ∧ SessionCleaner.extractPid "team-alpha" = none
    ∧ "team-alpha" ∉ ((SessionCleaner.cleanupNow [] [namedSession] (Except.error ())).2).removedIds :=
  ⟨by decide, by decide, by decide,
    cleanupNow_skips_sessions_without_pid [] [namedSession] (Except.error ())
      namedSession "team-alpha" (by decide) (by decide) (by decide)⟩

namespace TerminalTracker

theorem associate_fst (st : TrackerState) (sid : String) (tid : Nat) (s : String)
    (hne : ∀ s', st.terminalToSession tid = some s' → s'.data.isEmpty = false) :
    (associate st sid tid).sessionToTerminal s =
      if s = sid then some tid
      else if st.terminalToSession tid = some s then none
      else st.sessionToTerminal s := by
  cases h1 : st.terminalToSession tid with
  | none =>
    simp only [associate, h1, mapPut]
    by_cases hs : s = sid <;> simp [hs, h1]
  | some old =>
    simp only [associate, h1, hne old h1, Bool.false_eq_true, if_false, mapPut, mapDrop]
    by_cases hs : s = sid
    · simp [hs]
    · by_cases ho : s = old
      · simp [hs, ho, h1]
      · simp [hs, ho, h1, Ne.symm ho]

theorem associate_snd (st : TrackerState) (sid : String) (tid : Nat) (t : Nat)
    (hne : ∀ s', st.terminalToSession tid = some s' → s'.data.isEmpty = false) :
    (associate st sid tid).terminalToSession t =
      if t = tid then some sid
      else if (if st.terminalToSession tid = some sid then none
               else st.sessionToTerminal sid) = some t then none
      else st.terminalToSession t := by
  cases h1 : st.terminalToSession tid with
  | none =>
    simp only [associate, h1, mapPut, mapDrop]
    by_cases ht : t = tid
    · simp [ht]
    · cases h2 : st.sessionToTerminal sid with
      | none => simp [ht, h2]
      | some oldT =>
        by_cases hot : t = oldT
        · simp [ht, h2, hot, mapDrop]
        · simp [ht, h2, hot, mapDrop, Ne.symm hot]
  | some old =>
    simp only [associate, h1, hne old h1, Bool.false_eq_true, if_false, mapPut, mapDrop]
    by_cases ht : t = tid
    · simp [ht]
    · by_cases hso : sid = old
      · simp [ht, hso]
      · cases h2 : st.sessionToTerminal sid with
        | none => simp [ht, hso, h2, Ne.symm hso]
        | some oldT =>
          by_cases hot : t = oldT
          · simp [ht, hso, h2, hot, mapDrop, Ne.symm hso]
          · simp [ht, hso, h2, hot, mapDrop, Ne.symm hso, Ne.symm hot]

theorem inv_empty : Inv emptyTracker := by
  intro s t
  simp [emptyTracker]

theorem noEmptyBack_empty : NoEmptyBack emptyTracker := by
  intro t s hts
  exact Option.noConfusion hts

theorem inv_associate (st : TrackerState) (h : Inv st) (hne : NoEmptyBack st)
    (sid : String) (tid : Nat) : Inv (associate st sid tid) := by
  intro s t
  have hf : ∀ a b, st.sessionToTerminal a = some b → st.terminalToSession b = some a :=
    fun a b hab => (h a b).mp hab
  have hb : ∀ a b, st.terminalToSession b = some a → st.sessionToTerminal a = some b :=
    fun a b hab => (h a b).mpr hab
  rw [associate_fst st sid tid s (fun s' h' => hne tid s' h'),
    associate_snd st sid tid t (fun s' h' => hne tid s' h')]
  split_ifs <;> try simp_all
  · rename_i hs ht htts
    constructor
    · intro e
      exact absurd e.symm ht
    · intro htt
      have a := hb _ _ htt
      have b := hb _ _ htts
      rw [a] at b
      exact (Option.some.inj b).symm
  · rename_i hs ht h3 h4
    intro e
    rw [← e] at h4
    exact h3 (hf _ _ h4)
  · rename_i hs ht h3 h4
    constructor
    · intro e
      exact absurd e.symm ht
    · intro htt
      exact absurd (hb _ _ htt) h4
  · rename_i hs h2 ht
    intro e
    exact hs e.symm
  · rename_i hs h2 ht h4
    intro htt
    have a := hb _ _ htt
    have b := hb _ _ h2
    rw [a] at b
    exact ht (Option.some.inj b)
  · rename_i hs h2 ht
    constructor
    · intro hx
      exact absurd (hf _ _ hx) h2
    · intro e
      exact absurd e.symm hs
  · rename_i hs hss ht h4
    exact h s t
  · rename_i hs h2 ht h4 h5
    intro hx
    have a := hf _ _ hx
    have b := hf _ _ h5
    rw [a] at b
    exact hs (Option.some.inj b)
  · rename_i hs h2 ht h4 h5
    exact h s t

theorem inv_removeSession (st : TrackerState) (h : Inv st) (sid : String) :
    Inv (removeSession st sid) := by
  intro s t
  have hf : ∀ a b, st.sessionToTerminal a = some b → st.terminalToSession b = some a :=
    fun a b hab => (h a b).mp hab
  have hb : ∀ a b, st.terminalToSession b = some a → st.sessionToTerminal a = some b :=
    fun a b hab => (h a b).mpr hab
  unfold removeSession
  cases h1 : st.sessionToTerminal sid with
  | none =>
    simp only [h1, mapDrop]
    by_cases hs : s = sid
    · subst hs
      simp only [if_pos rfl]
      constructor
      · intro hx
        exact absurd hx (by simp)
      · intro htt
        rw [hb _ _ htt] at h1
        exact Option.noConfusion h1
    · simp only [if_neg hs]
      exact h s t
  | some tt =>
    simp only [h1, mapDrop]
    by_cases hs : s = sid <;> by_cases ht : t = tt
    · subst hs; subst ht
      simp
    · subst hs
      simp only [if_pos rfl, if_neg ht]
      constructor
      · intro hx
        exact absurd hx (by simp)
      · intro htt
        have a := hb _ _ htt
        rw [a] at h1
        exact absurd (Option.some.inj h1) ht
    · subst ht
      simp only [if_neg hs, if_pos rfl]
      constructor
      · intro hx
        have a := hf _ _ hx
        have b := hf _ _ h1
        rw [a] at b
        exact absurd (Option.some.inj b) hs
      · intro hx
        exact absurd hx (by simp)
    · simp only [if_neg hs, if_neg ht]
      exact h s t

theorem inv_removeTerminal (st : TrackerState) (h : Inv st) (hne : NoEmptyBack st)
    (tid : Nat) : Inv (removeTerminal st tid) := by
  intro s t
  have hf : ∀ a b, st.sessionToTerminal a = some b → st.terminalToSession b = some a :=
    fun a b hab => (h a b).mp hab
  have hb : ∀ a b, st.terminalToSession b = some a → st.sessionToTerminal a = some b :=
    fun a b hab => (h a b).mpr hab
  unfold removeTerminal
  cases h1 : st.terminalToSession tid with
  | none =>
    simp only [h1, mapDrop]
    by_cases ht : t = tid
    · subst ht
      simp only [if_pos rfl]
      constructor
      · intro hx
        rw [hf _ _ hx] at h1
        exact Option.noConfusion h1
      · intro hx
        exact absurd hx (by simp)
    · simp only [if_neg ht]
      exact h s t
  | some ss =>
    simp only [h1, hne tid ss h1, Bool.false_eq_true, if_false, mapDrop]
    by_cases ht : t = tid <;> by_cases hs : s = ss
    · subst ht; subst hs
      simp
    · subst ht
      simp only [if_pos rfl, if_neg hs]
      constructor
      · intro hx
        have a := hf _ _ hx
        rw [a] at h1
        exact absurd (Option.some.inj h1) hs
      · intro hx
        exact absurd hx (by simp)
    · subst hs
      simp only [if_neg ht, if_pos rfl]
      constructor
      · intro hx
        exact absurd hx (by simp)
      · intro hx
        have a := hb _ _ hx
        have b := hb _ _ h1
        rw [a] at b
        exact absurd (Option.some.inj b) ht
    · simp only [if_neg ht, if_neg hs]
      exact h s t

theorem noEmptyBack_associate (st : TrackerState) (hne : NoEmptyBack st)
    (sid : String) (tid : Nat) (hsid : sid.data.isEmpty = false) :
    NoEmptyBack (associate st sid tid) := by
  intro t s hts
  rw [associate_snd st sid tid t (fun s' h' => hne tid s' h')] at hts
  by_cases ht : t = tid
  · rw [if_pos ht] at hts
    rw [← Option.some.inj hts]
    exact hsid
  · rw [if_neg ht] at hts
    by_cases hmid : (if st.terminalToSession tid = some sid then none
        else st.sessionToTerminal sid) = some t
    · rw [if_pos hmid] at hts
      exact Option.noConfusion hts
    · rw [if_neg hmid] at hts
      exact hne t s hts

theorem noEmptyBack_removeSession (st : TrackerState) (hne : NoEmptyBack st)
    (sid : String) : NoEmptyBack (removeSession st sid) := by
  intro t s hts
  simp only [removeSession] at hts
  cases h1 : st.sessionToTerminal sid with
  | none =>
    rw [h1] at hts
    exact hne t s hts
  | some tt =>
    rw [h1] at hts
    simp only [mapDrop] at hts
    by_cases ht : t = tt
    · rw [if_pos ht] at hts
      exact Option.noConfusion hts
    · rw [if_neg ht] at hts
      exact hne t s hts

theorem noEmptyBack_removeTerminal (st : TrackerState) (hne : NoEmptyBack st)
    (tid : Nat) : NoEmptyBack (removeTerminal st tid) := by
  intro t s hts
  simp only [removeTerminal, mapDrop] at hts
  by_cases ht : t = tid
  · rw [if_pos ht] at hts
    exact Option.noConfusion hts
  · rw [if_neg ht] at hts
    exact hne t s hts

theorem inv_applyOp (st : TrackerState) (h : Inv st) (hne : NoEmptyBack st)
    (op : TrackerOp) (hop : opNonEmptySessionId op = true) :
    Inv (applyOp st op) ∧ NoEmptyBack (applyOp st op) := by
  cases op with
  | associate sid tid =>
    have hsid : sid.data.isEmpty = false := by
      simpa [opNonEmptySessionId] using hop
    exact ⟨inv_associate st h hne sid tid, noEmptyBack_associate st hne sid tid hsid⟩
  | removeSession sid =>
    exact ⟨inv_removeSession st h sid, noEmptyBack_removeSession st hne sid⟩
  | removeTerminal tid =>
    exact ⟨inv_removeTerminal st h hne tid, noEmptyBack_removeTerminal st hne tid⟩

theorem inv_foldl (st : TrackerState) (h : Inv st) (hne : NoEmptyBack st)
    (ops : List TrackerOp) (hops : ∀ op ∈ ops, opNonEmptySessionId op = true) :
    Inv (ops.foldl applyOp st) := by
  induction ops generalizing st with
  | nil => exact h
  | cons op rest ih =>
    have hstep := inv_applyOp st h hne op (hops op (List.mem_cons_self op rest))
    exact ih _ hstep.1 hstep.2 (fun o ho => hops o (List.mem_cons_of_mem op ho))

end TerminalTracker

/-- C10 (amended): after any sequence of associate, removeSession and
removeTerminal calls starting from the empty tracker in which every
associate call carries a non-empty session id (the empty string is
falsy, so it escapes the source's cleanup guards), the two affinity
maps are mutually inverse: a session maps to a terminal exactly when
that terminal maps back to the same session, so no session is paired
with two terminals and no terminal with two sessions. -/
theorem tracker_maps_mutually_inverse (ops : List TerminalTracker.TrackerOp)
    (hops : ∀ op ∈ ops, TerminalTracker.opNonEmptySessionId op = true) :
    TerminalTracker.Inv (TerminalTracker.runOps ops) :=
  TerminalTracker.inv_foldl TerminalTracker.emptyTracker TerminalTracker.inv_empty
    TerminalTracker.noEmptyBack_empty ops hops

/-- C10 (witness): the invariant concluded for a concrete sequence that
re-associates a terminal to another session and then removes both
sides. -/
theorem tracker_maps_mutually_inverse_witness :
    (∀ op ∈ ([.associate "s1" 1, .associate "s2" 1, .removeSession "s1",
        .removeTerminal 1] : List TerminalTracker.TrackerOp),
      TerminalTracker.opNonEmptySessionId op = true)
    ∧ TerminalTracker.Inv (TerminalTracker.runOps
        [.associate "s1" 1, .associate "s2" 1, .removeSession "s1", .removeTerminal 1]) :=
  ⟨by decide, tracker_maps_mutually_inverse
    [.associate "s1" 1, .associate "s2" 1, .removeSession "s1", .removeTerminal 1]
    (by decide)⟩

/-- C10 (counterexample): the empty session id is falsy, so the cleanup
guard of associate skips its delete: after associating the empty id to
terminal 0 and then the id s to the same terminal, the forward map still
sends the empty id to 0 while the backward map sends 0 to s, and the two
maps are not mutually inverse. -/
theorem tracker_empty_session_id_counterexample :
    (TerminalTracker.runOps
        [.associate "" 0, .associate "s" 0]).sessionToTerminal "" = some 0
    ∧ (TerminalTracker.runOps
        [.associate "" 0, .associate "s" 0]).terminalToSession 0 = some "s"
    ∧ ¬ TerminalTracker.Inv (TerminalTracker.runOps [.associate "" 0, .associate "s" 0]) := by
  refine ⟨rfl, rfl, ?_⟩
  intro h
  have h1 := (h "" 0).mp rfl
  have h2 : (TerminalTracker.runOps
      [.associate "" 0, .associate "s" 0]).terminalToSession 0 = some "s" := rfl
  rw [h2] at h1
  exact absurd (Option.some.inj h1) (by decide)

namespace SessionManager

theorem loadStep_eq_goodOf (acc : List Session) (f : DiskFile) :
    loadStep acc f = match goodOf f with
      | some s => mapSet acc s
      | none => acc := by
  unfold loadStep goodOf
  by_cases h1 : jsEndsWith f.name ".json"
  · simp only [h1, if_pos]
    cases f.content with
    | corrupt => rfl
    | parsed s => by_cases h2 : strTruthy s.id && strTruthy s.status <;> simp [h2]
  · simp [h1]

theorem mapSet_eq_append (m : List Session) (s : Session)
    (h : ∀ x ∈ m, x.id ≠ s.id) : mapSet m s = m ++ [s] := by
  unfold mapSet
  rw [if_neg]
  intro hc
  rcases List.any_eq_true.mp hc with ⟨x, hx, hbeq⟩
  exact h x hx (by simpa using hbeq)

theorem mem_mapSet (m : List Session) (s0 x : Session) (hx : x ∈ mapSet m s0) :
    x ∈ m ∨ x = s0 := by
  unfold mapSet at hx
  split at hx
  · rcases List.mem_map.mp hx with ⟨y, hy, he⟩
    by_cases hid : y.id == s0.id
    · right
      rw [← he]
      simp [hid]
    · left
      rw [← he]
      simp only [if_neg hid]
      exact hy
  · rcases List.mem_append.mp hx with h | h
    · exact Or.inl h
    · right
      simpa using h

theorem foldl_loadStep_eq (files : List DiskFile) (acc : List Session)
    (hdisj : ∀ x ∈ acc, ∀ s ∈ files.filterMap goodOf, x.id ≠ s.id)
    (hpair : (files.filterMap goodOf).Pairwise (fun a b => a.id ≠ b.id)) :
    files.foldl loadStep acc = acc ++ files.filterMap goodOf := by
  induction files generalizing acc with
  | nil => simp
  | cons f rest ih =>
    rw [List.foldl_cons, loadStep_eq_goodOf]
    cases hg : goodOf f with
    | none =>
      rw [List.filterMap_cons_none hg] at hdisj hpair ⊢
      exact ih acc hdisj hpair
    | some s =>
      rw [List.filterMap_cons_some hg] at hdisj hpair ⊢
      have hpair' := List.pairwise_cons.mp hpair
      show List.foldl loadStep (mapSet acc s) rest = acc ++ s :: List.filterMap goodOf rest
      rw [mapSet_eq_append acc s (fun x hx => hdisj x hx s (List.mem_cons_self s _))]
      rw [ih (acc ++ [s]) ?_ hpair'.2]
      · simp
      · intro x hx t ht
        rcases List.mem_append.mp hx with hxa | hxs
        · exact hdisj x hxa t (List.mem_cons_of_mem s ht)
        · have hxe : x = s := by simpa using hxs
          rw [hxe]
          exact hpair'.1 t ht

theorem loadSessionsFrom_eq_filterMap (files : List DiskFile)
    (hpair : (files.filterMap goodOf).Pairwise (fun a b => a.id ≠ b.id)) :
    loadSessionsFrom files = files.filterMap goodOf := by
  have h := foldl_loadStep_eq files [] (by simp) hpair
  simpa [loadSessionsFrom] using h

theorem mem_foldl_loadStep (files : List DiskFile) (acc : List Session) (s : Session)
    (hs : s ∈ files.foldl loadStep acc) :
    s ∈ acc ∨ ∃ f ∈ files, goodOf f = some s := by
  induction files generalizing acc with
  | nil => exact Or.inl hs
  | cons f rest ih =>
    rw [List.foldl_cons, loadStep_eq_goodOf] at hs
    cases hg : goodOf f with
    | none =>
      rw [hg] at hs
      rcases ih acc hs with h | ⟨g, hg2, hg3⟩
      · exact Or.inl h
      · exact Or.inr ⟨g, List.mem_cons_of_mem f hg2, hg3⟩
    | some s0 =>
      rw [hg] at hs
      rcases ih (mapSet acc s0) hs with h | ⟨g, hg2, hg3⟩
      · rcases mem_mapSet acc s0 s h with h2 | h2
        · exact Or.inl h2
        · exact Or.inr ⟨f, List.mem_cons_self f rest, by rw [hg, h2]⟩
      · exact Or.inr ⟨g, List.mem_cons_of_mem f hg2, hg3⟩

theorem mem_loadSessionsFrom (files : List DiskFile) (s : Session)
    (hs : s ∈ loadSessionsFrom files) : ∃ f ∈ files, goodOf f = some s := by
  rcases mem_foldl_loadStep files [] s hs with h | h
  · exact absurd h (List.not_mem_nil s)
  · exact h

theorem mem_filterByWorkspace (env : ViewEnv) (l : List Session) (s : Session)
    (h : s ∈ filterByWorkspace env l) : s ∈ l := by
  unfold filterByWorkspace at h
  split at h
  · exact (List.mem_filter.mp h).1
  · exact h

theorem mem_sortByLastUpdateDesc (env : ViewEnv) (l : List Session) (s : Session) :
    s ∈ sortByLastUpdateDesc env l ↔ s ∈ l :=
  List.mem_mergeSort

theorem mem_of_mem_getAttentionRequired (env : ViewEnv) (m : List Session) (s : Session)
    (h : s ∈ getAttentionRequired env m) : s ∈ m := by
  unfold getAttentionRequired at h
  exact (List.mem_filter.mp
    ((mem_sortByLastUpdateDesc env _ s).mp (mem_filterByWorkspace env _ s h))).1

theorem mem_of_mem_getIdle (env : ViewEnv) (m : List Session) (s : Session)
    (h : s ∈ getIdle env m) : s ∈ m := by
  unfold getIdle at h
  exact (List.mem_filter.mp
    ((mem_sortByLastUpdateDesc env _ s).mp (mem_filterByWorkspace env _ s h))).1

theorem mem_of_mem_getRunning (env : ViewEnv) (m : List Session) (s : Session)
    (h : s ∈ getRunning env m) : s ∈ m := by
  unfold getRunning at h
  exact (List.mem_filter.mp
    ((mem_sortByLastUpdateDesc env _ s).mp (mem_filterByWorkspace env _ s h))).1

end SessionManager

namespace Extension

theorem mem_of_mem_getFilteredSessions (m : List Session) (gm : Bool)
    (roots : List String) (s : Session)
    (h : s ∈ getFilteredSessions m gm roots) : s ∈ m := by
  unfold getFilteredSessions at h
  split at h
  · exact h
  · split at h
    · exact h
    · exact (List.mem_filter.mp h).1

end Extension

namespace SessionManager

theorem goodOf_corrupt (f : DiskFile) (h : f.content = FileContent.corrupt) :
    goodOf f = none := by
  unfold goodOf
  rw [h]
  split <;> rfl

theorem foldl_loadStep_skip_corrupt (files : List DiskFile) (acc : List Session) :
    files.foldl loadStep acc
      = (files.filter (fun f => !(f.content == FileContent.corrupt))).foldl loadStep acc := by
  induction files generalizing acc with
  | nil => rfl
  | cons f rest ih =>
    by_cases h : f.content = FileContent.corrupt
    · rw [List.foldl_cons, loadStep_eq_goodOf, goodOf_corrupt f h]
      have hc : (!(f.content == FileContent.corrupt)) = false := by simp [h]
      rw [List.filter_cons, hc]
      exact ih acc
    · have hc : (!(f.content == FileContent.corrupt)) = true := by simp [h]
      rw [List.filter_cons, hc, if_pos rfl]
      rw [List.foldl_cons, List.foldl_cons]
      exact ih (loadStep acc f)

theorem length_filterMap_goodOf (l : List DiskFile) (h : ∀ f ∈ l, (goodOf f).isSome) :
    (l.filterMap goodOf).length = l.length := by
  induction l with
  | nil => rfl
  | cons f rest ih =>
    cases hg : goodOf f with
    | none =>
      have := h f (List.mem_cons_self f rest)
      rw [hg] at this
      exact absurd this (by simp)
    | some s =>
      rw [List.filterMap_cons_some hg]
      simp only [List.length_cons]
      rw [ih (fun g hgm => h g (List.mem_cons_of_mem f hgm))]

theorem distinct_ids_of_distinct_files (files : List DiskFile)
    (hpair : (files.filterMap goodOf).Pairwise (fun a b => a.id ≠ b.id)) :
    ∀ f ∈ files, ∀ g ∈ files, f.name ≠ g.name →
      ∀ s t, goodOf f = some s → goodOf g = some t → s.id ≠ t.id := by
  induction files with
  | nil => intro f hf; cases hf
  | cons a rest ih =>
    intro f hf g hg hne s t hfs hgt
    rcases List.mem_cons.mp hf with hfa | hfr
    · rcases List.mem_cons.mp hg with hga | hgr
      · rw [hfa, hga] at hne
        exact absurd rfl hne
      · subst hfa
        rw [List.filterMap_cons_some hfs] at hpair
        exact (List.pairwise_cons.mp hpair).1 t (List.mem_filterMap.mpr ⟨g, hgr, hgt⟩)
    · rcases List.mem_cons.mp hg with hga | hgr
      · subst hga
        rw [List.filterMap_cons_some hgt] at hpair
        exact fun he =>
          (List.pairwise_cons.mp hpair).1 s (List.mem_filterMap.mpr ⟨f, hfr, hfs⟩) he.symm
      · cases hga : goodOf a with
        | none =>
          rw [List.filterMap_cons_none hga] at hpair
          exact ih hpair f hfr g hgr hne s t hfs hgt
        | some u =>
          rw [List.filterMap_cons_some hga] at hpair
          exact ih (List.pairwise_cons.mp hpair).2 f hfr g hgr hne s t hfs hgt

end SessionManager

/-- C9: the batch read of the session directory skips each unparseable
(or partially written) file without aborting: the loaded registry equals
the one obtained after removing the corrupt files, and under distinct
ids it consists of exactly the remaining well-formed records; a missing
sessions directory is not an error: it is created and the read returns
the empty registry. -/
theorem loadSessions_skips_corrupt_and_creates_directory (files : List DiskFile)
    (hpair : (files.filterMap SessionManager.goodOf).Pairwise (fun a b => a.id ≠ b.id)) :
    SessionManager.loadSessionsFrom files
        = SessionManager.loadSessionsFrom
            (files.filter (fun f => !(f.content == FileContent.corrupt)))
    ∧ SessionManager.loadSessionsFrom files = files.filterMap SessionManager.goodOf
    ∧ SessionManager.loadSessions none = (some [], []) := by
  refine ⟨?_, ?_, rfl⟩
  · unfold SessionManager.loadSessionsFrom
    exact SessionManager.foldl_loadStep_skip_corrupt files []
  · exact SessionManager.loadSessionsFrom_eq_filterMap files hpair

/-- C9 (witness): a directory mixing two well-formed files with one
corrupt file, evaluated concretely. -/
theorem loadSessions_skips_corrupt_witness :
    (([⟨"a.json", FileContent.parsed ⟨some "a", some "running", none, none, some "2024-01-01T00:00:00Z"⟩⟩,
       ⟨"b.json", FileContent.corrupt⟩,
       ⟨"c.json", FileContent.parsed ⟨some "c", some "idle", none, none, some "2024-01-02T00:00:00Z"⟩⟩] :
        List DiskFile).filterMap SessionManager.goodOf).Pairwise (fun a b => a.id ≠ b.id)
    ∧ (SessionManager.loadSessionsFrom
        [⟨"a.json", FileContent.parsed ⟨some "a", some "running", none, none, some "2024-01-01T00:00:00Z"⟩⟩,
         ⟨"b.json", FileContent.corrupt⟩,
         ⟨"c.json", FileContent.parsed ⟨some "c", some "idle", none, none, some "2024-01-02T00:00:00Z"⟩⟩]
        = SessionManager.loadSessionsFrom
            ([⟨"a.json", FileContent.parsed ⟨some "a", some "running", none, none, some "2024-01-01T00:00:00Z"⟩⟩,
              ⟨"b.json", FileContent.corrupt⟩,
              ⟨"c.json", FileContent.parsed ⟨some "c", some "idle", none, none, some "2024-01-02T00:00:00Z"⟩⟩].filter
               (fun f => !(f.content == FileContent.corrupt)))
      ∧ SessionManager.loadSessionsFrom
          [⟨"a.json", FileContent.parsed ⟨some "a", some "running", none, none, some "2024-01-01T00:00:00Z"⟩⟩,
           ⟨"b.json", FileContent.corrupt⟩,
           ⟨"c.json", FileContent.parsed ⟨some "c", some "idle", none, none, some "2024-01-02T00:00:00Z"⟩⟩]
          = [⟨"a.json", FileContent.parsed ⟨some "a", some "running", none, none, some "2024-01-01T00:00:00Z"⟩⟩,
             ⟨"b.json", FileContent.corrupt⟩,
             ⟨"c.json", FileContent.parsed ⟨some "c", some "idle", none, none, some "2024-01-02T00:00:00Z"⟩⟩].filterMap
              SessionManager.goodOf
      ∧ SessionManager.loadSessions none = (some [], [])) :=
  ⟨by decide, loadSessions_skips_corrupt_and_creates_directory _ (by decide)⟩

/-- C5: over a directory of well-formed session files with distinct ids,
a reload returns exactly one record per file, each deep-equal to the
parsed contents of its file; and after deleting any one file, a reload
leaves no session with that file's id in the registry or in any view:
the three status views, with any filtering environment, and the
workspace-filtered view, with any mode and any workspace roots. -/
theorem reload_roundtrip_and_deletion_removes (files : List DiskFile)
    (hg : ∀ f ∈ files, (SessionManager.goodOf f).isSome)
    (hpair : (files.filterMap SessionManager.goodOf).Pairwise (fun a b => a.id ≠ b.id)) :
    ((SessionManager.loadSessionsFrom files).length = files.length
      ∧ (∀ f ∈ files, ∀ s, SessionManager.goodOf f = some s →
          s ∈ SessionManager.loadSessionsFrom files)
      ∧ (∀ s ∈ SessionManager.loadSessionsFrom files,
          ∃ f ∈ files, SessionManager.goodOf f = some s))
    ∧ (∀ f0 ∈ files, ∀ s0, SessionManager.goodOf f0 = some s0 →
        (∀ s ∈ SessionManager.loadSessionsFrom (SessionManager.unlinkIfExists files f0.name),
          s.id ≠ s0.id)
        ∧ (∀ env s, s ∈ SessionManager.getAttentionRequired env
            (SessionManager.loadSessionsFrom (SessionManager.unlinkIfExists files f0.name)) →
            s.id ≠ s0.id)
        ∧ (∀ env s, s ∈ SessionManager.getIdle env
            (SessionManager.loadSessionsFrom (SessionManager.unlinkIfExists files f0.name)) →
            s.id ≠ s0.id)
        ∧ (∀ env s, s ∈ SessionManager.getRunning env
            (SessionManager.loadSessionsFrom (SessionManager.unlinkIfExists files f0.name)) →
            s.id ≠ s0.id)
        ∧ (∀ gm roots s, s ∈ Extension.getFilteredSessions
            (SessionManager.loadSessionsFrom (SessionManager.unlinkIfExists files f0.name)) gm roots →
            s.id ≠ s0.id)) := by
  have heq := SessionManager.loadSessionsFrom_eq_filterMap files hpair
  have hcore : ∀ f0 ∈ files, ∀ s0, SessionManager.goodOf f0 = some s0 →
      ∀ s ∈ SessionManager.loadSessionsFrom (SessionManager.unlinkIfExists files f0.name),
        s.id ≠ s0.id := by
    intro f0 hf0 s0 hg0 s hs
    rcases SessionManager.mem_loadSessionsFrom _ s hs with ⟨f, hfmem, hgf⟩
    have hfin : f ∈ files := (List.mem_filter.mp hfmem).1
    have hfname : f.name ≠ f0.name := by
      have := (List.mem_filter.mp hfmem).2
      simpa using this
    exact SessionManager.distinct_ids_of_distinct_files files hpair f hfin f0 hf0 hfname s s0 hgf hg0
  refine ⟨⟨?_, ?_, ?_⟩, ?_⟩
  · rw [heq]
    exact SessionManager.length_filterMap_goodOf files hg
  · intro f hf s hgf
    rw [heq]
    exact List.mem_filterMap.mpr ⟨f, hf, hgf⟩
  · intro s hs
    exact SessionManager.mem_loadSessionsFrom files s hs
  · intro f0 hf0 s0 hg0
    refine ⟨hcore f0 hf0 s0 hg0, ?_, ?_, ?_, ?_⟩
    · intro env s hs
      exact hcore f0 hf0 s0 hg0 s
        (SessionManager.mem_of_mem_getAttentionRequired env _ s hs)
    · intro env s hs
      exact hcore f0 hf0 s0 hg0 s (SessionManager.mem_of_mem_getIdle env _ s hs)
    · intro env s hs
      exact hcore f0 hf0 s0 hg0 s (SessionManager.mem_of_mem_getRunning env _ s hs)
    · intro gm roots s hs
      exact hcore f0 hf0 s0 hg0 s
        (Extension.mem_of_mem_getFilteredSessions _ gm roots s hs)

/-- C5 (witness): the roundtrip and deletion theorem applied to a
concrete well-formed two-file directory. -/
theorem reload_roundtrip_and_deletion_removes_witness :
    (∀ f ∈ ([⟨"a.json", FileContent.parsed ⟨some "a", some "attention", some "permission_prompt", some "/w/a", some "2024-01-01T00:00:00Z"⟩⟩,
             ⟨"c.json", FileContent.parsed ⟨some "c", some "idle", none, some "/w/c", some "2024-01-02T00:00:00Z"⟩⟩] :
              List DiskFile), (SessionManager.goodOf f).isSome)
    ∧ (([⟨"a.json", FileContent.parsed ⟨some "a", some "attention", some "permission_prompt", some "/w/a", some "2024-01-01T00:00:00Z"⟩⟩,
         ⟨"c.json", FileContent.parsed ⟨some "c", some "idle", none, some "/w/c", some "2024-01-02T00:00:00Z"⟩⟩] :
          List DiskFile).filterMap SessionManager.goodOf).Pairwise (fun a b => a.id ≠ b.id)
    ∧ (((SessionManager.loadSessionsFrom
          [⟨"a.json", FileContent.parsed ⟨some "a", some "attention", some "permission_prompt", some "/w/a", some "2024-01-01T00:00:00Z"⟩⟩,
           ⟨"c.json", FileContent.parsed ⟨some "c", some "idle", none, some "/w/c", some "2024-01-02T00:00:00Z"⟩⟩]).length = 2)) :=
  ⟨by decide, by decide,
    ((reload_roundtrip_and_deletion_removes
      [⟨"a.json", FileContent.parsed ⟨some "a", some "attention", some "permission_prompt", some "/w/a", some "2024-01-01T00:00:00Z"⟩⟩,
       ⟨"c.json", FileContent.parsed ⟨some "c", some "idle", none, some "/w/c", some "2024-01-02T00:00:00Z"⟩⟩]
      (by decide) (by decide)).1).1⟩

theorem jsEndsWith_append (x s : String) : jsEndsWith (x ++ s) s = true := by
  unfold jsEndsWith
  rw [String.data_append]
  exact List.isSuffixOf_iff_suffix.mpr (List.suffix_append x.data s.data)

namespace SessionManager

theorem goodOf_some_parts (f : DiskFile) (s : Session) (h : goodOf f = some s) :
    strTruthy s.id = true ∧ strTruthy s.status = true ∧ f.content = FileContent.parsed s
      ∧ jsEndsWith f.name ".json" = true := by
  unfold goodOf at h
  by_cases h1 : jsEndsWith f.name ".json"
  · rw [if_pos h1] at h
    cases hc : f.content with
    | corrupt => rw [hc] at h; exact Option.noConfusion h
    | parsed s0 =>
      rw [hc] at h
      have h' : (if (strTruthy s0.id && strTruthy s0.status) = true then some s0 else none)
          = some s := h
      by_cases h2 : strTruthy s0.id && strTruthy s0.status
      · rw [if_pos h2] at h'
        have he : s0 = s := Option.some.inj h'
        subst he
        rw [Bool.and_eq_true] at h2
        exact ⟨h2.1, h2.2, rfl, h1⟩
      · rw [if_neg h2] at h'
        exact Option.noConfusion h'
  · rw [if_neg h1] at h
    exact Option.noConfusion h

theorem goodOf_named_parsed (name : String) (s : Session)
    (hid : strTruthy s.id = true) (hst : strTruthy s.status = true)
    (hend : jsEndsWith name ".json" = true) :
    goodOf ⟨name, FileContent.parsed s⟩ = some s := by
  unfold goodOf
  rw [if_pos hend]
  have h2 : (strTruthy s.id && strTruthy s.status) = true := by
    rw [Bool.and_eq_true]
    exact ⟨hid, hst⟩
  show (if (strTruthy s.id && strTruthy s.status) = true then some s else none) = some s
  rw [if_pos h2]

theorem eq_of_name_eq (files : List DiskFile)
    (hnames : files.Pairwise (fun a b => a.name ≠ b.name)) :
    ∀ f ∈ files, ∀ g ∈ files, f.name = g.name → f = g := by
  induction files with
  | nil => intro f hf; cases hf
  | cons a rest ih =>
    intro f hf g hg he
    have hp := List.pairwise_cons.mp hnames
    rcases List.mem_cons.mp hf with rfl | hfr
    · rcases List.mem_cons.mp hg with rfl | hgr
      · rfl
      · exact absurd he (hp.1 g hgr)
    · rcases List.mem_cons.mp hg with rfl | hgr
      · exact absurd he.symm (hp.1 f hfr)
      · exact ih hp.2 f hfr g hgr he

theorem writeFile_of_mem (files : List DiskFile) (name : String) (c : FileContent)
    (hex : ∃ f ∈ files, f.name = name) :
    writeFile files name c
      = files.map (fun f => if f.name == name then ⟨name, c⟩ else f) := by
  unfold writeFile
  rw [if_pos]
  rcases hex with ⟨f, hf, he⟩
  exact List.any_eq_true.mpr ⟨f, hf, by simp [he]⟩

theorem find?_map_replace (files : List DiskFile) (name : String) (c : FileContent)
    (hex : ∃ f ∈ files, f.name = name) :
    (files.map (fun f => if f.name == name then ⟨name, c⟩ else f)).find?
        (fun f => f.name == name) = some ⟨name, c⟩ := by
  induction files with
  | nil =>
    rcases hex with ⟨f, hf, _⟩
    cases hf
  | cons g rest ih =>
    rw [List.map_cons]
    by_cases hg : g.name = name
    · rw [if_pos (by simp [hg])]
      exact List.find?_cons_of_pos _ (by simp)
    · rw [if_neg (by simp [hg])]
      rw [List.find?_cons_of_neg _ (by simp [hg])]
      rcases hex with ⟨f, hf, hfe⟩
      rcases List.mem_cons.mp hf with rfl | hfr
      · exact absurd hfe hg
      · exact ih ⟨f, hfr, hfe⟩

theorem ids_filterMap_map_replace (files : List DiskFile) (name : String) (s' : Session)
    (hrep : ∀ f ∈ files, f.name = name → ∃ sg, goodOf f = some sg ∧ sg.id = s'.id)
    (hgood : goodOf ⟨name, FileContent.parsed s'⟩ = some s') :
    ((files.map (fun f => if f.name == name then ⟨name, FileContent.parsed s'⟩ else f)).filterMap
        goodOf).map (fun s => s.id)
      = (files.filterMap goodOf).map (fun s => s.id) := by
  induction files with
  | nil => rfl
  | cons g rest ih =>
    rw [List.map_cons]
    have ihr := ih (fun f hf he => hrep f (List.mem_cons_of_mem g hf) he)
    by_cases hg : g.name = name
    · rw [if_pos (by simp [hg])]
      rcases hrep g (List.mem_cons_self g rest) hg with ⟨sg, hsg, hsgid⟩
      rw [List.filterMap_cons_some hgood, List.filterMap_cons_some hsg]
      simp only [List.map_cons]
      rw [ihr, hsgid]
    · rw [if_neg (by simp [hg])]
      cases hgg : goodOf g with
      | none => rw [List.filterMap_cons_none hgg, List.filterMap_cons_none hgg]; exact ihr
      | some sg =>
        rw [List.filterMap_cons_some hgg, List.filterMap_cons_some hgg]
        simp only [List.map_cons]
        rw [ihr]

theorem find?_by_id (l : List Session)
    (hpair : l.Pairwise (fun a b => a.id ≠ b.id)) (s : Session) (hs : s ∈ l)
    (i : String) (hi : s.id = some i) :
    l.find? (fun x => x.id == some i) = some s := by
  induction l with
  | nil => cases hs
  | cons a rest ih =>
    have hp := List.pairwise_cons.mp hpair
    rcases List.mem_cons.mp hs with rfl | hsr
    · exact List.find?_cons_of_pos _ (by simp [hi])
    · have hne : a.id ≠ s.id := hp.1 s hsr
      rw [List.find?_cons_of_neg _ (by
        simp only [beq_iff_eq]
        rw [hi] at hne
        exact hne)]
      exact ih hp.2 hsr

end SessionManager

/-- C4 (amended): on a directory whose files are named after their
session ids, clearing attention through updateSessionStatus on a
registry session in attention status yields, both in the reloaded
registry and in the session's file on disk, the same record with status
running, reason cleared, and lastUpdate set to the clock reading of the
call; that new lastUpdate is strictly greater than the old one provided
the clock reading is strictly greater than the stored timestamp, a
premise the code itself does not enforce. -/
theorem clearAttention_updates_memory_and_disk
    (files : List DiskFile) (sid now t : String) (sess : Session)
    (hnames : files.Pairwise (fun a b => a.name ≠ b.name))
    (hpair : (files.filterMap SessionManager.goodOf).Pairwise (fun a b => a.id ≠ b.id))
    (hnamed : ∀ f ∈ files, ∀ s, SessionManager.goodOf f = some s →
        ∀ i, s.id = some i → f.name = i ++ ".json")
    (hfind : (SessionManager.loadSessionsFrom files).find? (fun s => s.id == some sid)
        = some sess)
    (hatt : sess.status = some "attention")
    (hlast : sess.lastUpdate = some t)
    (hclock : strLt t now = true) :
    ((SessionManager.updateSessionStatus files (SessionManager.loadSessionsFrom files)
        sid "running" now).2.find? (fun s => s.id == some sid)
      = some { sess with status := some "running", reason := none, lastUpdate := some now })
    ∧ ((SessionManager.updateSessionStatus files (SessionManager.loadSessionsFrom files)
        sid "running" now).1.find? (fun f => f.name == sid ++ ".json")
      = some ⟨sid ++ ".json", FileContent.parsed
          { sess with status := some "running", reason := none, lastUpdate := some now }⟩)
    ∧ (∀ u, sess.lastUpdate = some u → strLt u now = true) := by
  have hsid : sess.id = some sid := by
    have h := List.find?_some hfind
    simpa using h
  have hmem : sess ∈ SessionManager.loadSessionsFrom files := List.mem_of_find?_eq_some hfind
  rcases SessionManager.mem_loadSessionsFrom files sess hmem with ⟨f, hfmem, hgf⟩
  have hparts := SessionManager.goodOf_some_parts f sess hgf
  have hfname : f.name = sid ++ ".json" := hnamed f hfmem sess hgf sid hsid
  have hex : ∃ g ∈ files, g.name = sid ++ ".json" := ⟨f, hfmem, hfname⟩
  have hgood : SessionManager.goodOf ⟨sid ++ ".json", FileContent.parsed { sess with status := some "running", reason := none, lastUpdate := some now }⟩
      = some { sess with status := some "running", reason := none, lastUpdate := some now } := by
    apply SessionManager.goodOf_named_parsed
    · exact hparts.1
    · show strTruthy (some "running") = true
      decide
    · exact jsEndsWith_append sid ".json"
  have hrep : ∀ g ∈ files, g.name = sid ++ ".json" → ∃ sg, SessionManager.goodOf g = some sg ∧
      sg.id = sess.id := by
    intro g hg hge
    have hgeq : g = f := SessionManager.eq_of_name_eq files hnames g hg f hfmem
      (by rw [hge, hfname])
    subst hgeq
    exact ⟨sess, hgf, rfl⟩
  have hideq := SessionManager.ids_filterMap_map_replace files (sid ++ ".json")
    { sess with status := some "running", reason := none, lastUpdate := some now } hrep hgood
  have hpairids : ((files.filterMap SessionManager.goodOf).map (fun s => s.id)).Pairwise Ne :=
    List.pairwise_map.mpr hpair
  rw [← hideq] at hpairids
  have hpair' := List.pairwise_map.mp hpairids
  have heqload := SessionManager.loadSessionsFrom_eq_filterMap _ hpair'
  have hmem' : ({ sess with status := some "running", reason := none, lastUpdate := some now } : Session) ∈
      ((files.map (fun g => if g.name == sid ++ ".json" then
          ⟨sid ++ ".json", FileContent.parsed { sess with status := some "running", reason := none, lastUpdate := some now }⟩ else g)).filterMap
        SessionManager.goodOf) := by
    apply List.mem_filterMap.mpr
    refine ⟨_, List.mem_map.mpr ⟨f, hfmem, rfl⟩, ?_⟩
    rw [if_pos (by simp [hfname])]
    exact hgood
  simp only [SessionManager.updateSessionStatus, hfind]
  rw [SessionManager.writeFile_of_mem files (sid ++ ".json") _ hex]
  refine ⟨?_, ?_, ?_⟩
  · rw [heqload]
    apply SessionManager.find?_by_id _ hpair' _ hmem' sid
    exact hsid
  · exact SessionManager.find?_map_replace files (sid ++ ".json") _ hex
  · intro u hu
    rw [hlast] at hu
    rw [← Option.some.inj hu]
    exact hclock

/-- C4 (witness): clearing attention on a concrete one-file directory
with a clock reading one millisecond after the stored timestamp. -/
theorem clearAttention_updates_memory_and_disk_witness :
    strLt "2024-01-01T00:00:00.000Z" "2024-01-01T00:00:00.001Z" = true
    ∧ ((SessionManager.updateSessionStatus
        [⟨"s1.json", FileContent.parsed ⟨some "s1", some "attention", some "permission_prompt", some "/w", some "2024-01-01T00:00:00.000Z"⟩⟩]
        (SessionManager.loadSessionsFrom
          [⟨"s1.json", FileContent.parsed ⟨some "s1", some "attention", some "permission_prompt", some "/w", some "2024-01-01T00:00:00.000Z"⟩⟩])
        "s1" "running" "2024-01-01T00:00:00.001Z").2.find? (fun s => s.id == some "s1")
      = some ⟨some "s1", some "running", none, some "/w", some "2024-01-01T00:00:00.001Z"⟩) :=
  ⟨by decide,
    (clearAttention_updates_memory_and_disk
      [⟨"s1.json", FileContent.parsed ⟨some "s1", some "attention", some "permission_prompt", some "/w", some "2024-01-01T00:00:00.000Z"⟩⟩]
      "s1" "2024-01-01T00:00:00.001Z" "2024-01-01T00:00:00.000Z"
      ⟨some "s1", some "attention", some "permission_prompt", some "/w", some "2024-01-01T00:00:00.000Z"⟩
      (by decide) (by decide)
      (by
        intro f hf s hgs i hi
        rcases List.mem_singleton.mp hf with rfl
        rw [show SessionManager.goodOf
            ⟨"s1.json", FileContent.parsed ⟨some "s1", some "attention", some "permission_prompt", some "/w", some "2024-01-01T00:00:00.000Z"⟩⟩
          = some ⟨some "s1", some "attention", some "permission_prompt", some "/w", some "2024-01-01T00:00:00.000Z"⟩ from by decide] at hgs
        have hse := Option.some.inj hgs
        rw [← hse] at hi
        have hie : some "s1" = some i := hi
        rw [← Option.some.inj hie]
        decide)
      (by decide) (by decide) (by decide) (by decide)).1⟩

/-- C4 (counterexample): with a clock reading equal to the stored
lastUpdate (an update landing in the same millisecond), clearing
attention writes the same timestamp again: the resulting record carries
the old lastUpdate and the strict increase claimed unconditionally
fails. -/
theorem clearAttention_no_strict_increase_counterexample :
    ((SessionManager.updateSessionStatus
        [⟨"s1.json", FileContent.parsed ⟨some "s1", some "attention", some "permission_prompt", some "/w", some "2024-01-01T00:00:00.000Z"⟩⟩]
        (SessionManager.loadSessionsFrom
          [⟨"s1.json", FileContent.parsed ⟨some "s1", some "attention", some "permission_prompt", some "/w", some "2024-01-01T00:00:00.000Z"⟩⟩])
        "s1" "running" "2024-01-01T00:00:00.000Z").2.find? (fun s => s.id == some "s1")
      = some ⟨some "s1", some "running", none, some "/w", some "2024-01-01T00:00:00.000Z"⟩)
    ∧ strLt "2024-01-01T00:00:00.000Z" "2024-01-01T00:00:00.000Z" = false := by
  decide

/-- C3 (amended): with global mode off and a non-empty workspace root
list, the extension's filtered view returns exactly the sessions of the
registry whose backslash-unescaped cwd, lower-cased, starts with one of
the lower-cased roots: a case-insensitive prefix match in the
cwd-under-root direction only, not the bidirectional one. -/
theorem getFilteredSessions_one_directional (mem : List Session) (roots : List String)
    (s : Session) (hroots : roots ≠ []) :
    s ∈ Extension.getFilteredSessions mem false roots ↔
      s ∈ mem ∧ ∃ cwd, s.cwd = some cwd ∧ cwd.data ≠ [] ∧
        ∃ wp ∈ roots,
          jsStartsWith (jsToLowerCase (unescapeBackslashes cwd)) (jsToLowerCase wp) = true := by
  unfold Extension.getFilteredSessions
  rw [if_neg (by simp)]
  rw [if_neg (by simpa using hroots)]
  rw [List.mem_filter]
  constructor
  · rintro ⟨hm, hp⟩
    refine ⟨hm, ?_⟩
    cases hc : s.cwd with
    | none =>
      rw [hc] at hp
      exact absurd hp (by simp)
    | some cwd =>
      rw [hc] at hp
      change (if cwd.data.isEmpty then false
        else roots.any (fun wp =>
          jsStartsWith (jsToLowerCase (unescapeBackslashes cwd)) (jsToLowerCase wp))) = true at hp
      by_cases he : cwd.data.isEmpty
      · rw [if_pos he] at hp
        exact absurd hp (by simp)
      · rw [if_neg he] at hp
        rcases List.any_eq_true.mp hp with ⟨wp, hwp, hj⟩
        exact ⟨cwd, rfl, by simpa using he, wp, hwp, hj⟩
  · rintro ⟨hm, cwd, hc, hne, wp, hwp, hj⟩
    refine ⟨hm, ?_⟩
    rw [hc]
    change (if cwd.data.isEmpty then false
      else roots.any (fun wp =>
        jsStartsWith (jsToLowerCase (unescapeBackslashes cwd)) (jsToLowerCase wp))) = true
    rw [if_neg (by simpa using hne)]
    exact List.any_eq_true.mpr ⟨wp, hwp, hj⟩

/-- C3 (witness): the characterization applied to one session whose cwd
/W/proj matches the root /w case-insensitively, placing it in the
filtered view. -/
theorem getFilteredSessions_one_directional_witness :
    (["/w"] : List String) ≠ []
    ∧ (⟨some "a", some "running", none, some "/W/proj", some "2024-01-01T00:00:00Z"⟩ : Session) ∈
        Extension.getFilteredSessions
          [⟨some "a", some "running", none, some "/W/proj", some "2024-01-01T00:00:00Z"⟩]
          false ["/w"] :=
  ⟨by decide,
    (getFilteredSessions_one_directional
      [⟨some "a", some "running", none, some "/W/proj", some "2024-01-01T00:00:00Z"⟩]
      ["/w"]
      ⟨some "a", some "running", none, some "/W/proj", some "2024-01-01T00:00:00Z"⟩
      (by decide)).mpr
      ⟨by decide, "/W/proj", rfl, by decide, "/w", by decide, by decide⟩⟩

/-- C3 (counterexample): a session whose cwd /repo contains the
workspace root /repo/sub, a match under the spec's bidirectional
reading, is excluded by the filtered view, which tests only the
cwd-under-root direction. -/
theorem getFilteredSessions_direction_counterexample :
    Extension.specWorkspaceMatch ["/repo/sub"] "/repo" = true
    ∧ Extension.getFilteredSessions
        [⟨some "ppid-7", some "running", none, some "/repo", some "2024-01-01T00:00:00Z"⟩]
        false ["/repo/sub"] = [] := by
  decide

/-- C2 (code landing): a focus request written 10 seconds ago and
otherwise addressed to this window is ignored by the poll, but the
shared file is left in place: only the modification-time watermark
advances; no deletion, no window activation, no terminal focus and no
attention clearing happen, while the repository's own test suite
requires stale requests to be deleted. -/
theorem checkForFocusRequest_stale_leaves_file :
    CrossWindowIpc.checkForFocusRequest
        ⟨some "w1", 0, ["/projects/frontend"]⟩
        (some ⟨some ⟨"ppid-1001", "/projects/frontend", some "w1", none, 0⟩, 1⟩)
        10000 [] [] (fun _ _ => none) true
      = ⟨some ⟨some ⟨"ppid-1001", "/projects/frontend", some "w1", none, 0⟩, 1⟩, 1, []⟩ := by
  decide

/-- C6: a fresh focus request carrying an identity token that matches
window A's token and not window B's is consumed only by A: B's poll
leaves the file in place and performs no action, while A's poll deletes
the file first and then activates the window, shows and focuses the
matched terminal, and clears the session's attention. -/
theorem focus_request_identity_token_routing
    (A B : CrossWindowIpc.WindowState) (f : CrossWindowIpc.FocusFile)
    (req : CrossWindowIpc.FocusRequest) (now : Nat)
    (sessions : List Session) (terminals : List CrossWindowIpc.Terminal)
    (matchFn : Session → List CrossWindowIpc.Terminal → Option CrossWindowIpc.Terminal)
    (sess : Session) (t : CrossWindowIpc.Terminal)
    (hreq : f.request = some req)
    (hA : f.mtime ≠ A.lastMtime) (hB : f.mtime ≠ B.lastMtime)
    (hfresh : now - req.timestamp ≤ 5000)
    (htok : strTruthy req.vscodeIpcHandle = true)
    (hAid : A.myIpcHandle = req.vscodeIpcHandle)
    (hBtruthy : strTruthy B.myIpcHandle = true)
    (hBne : B.myIpcHandle ≠ req.vscodeIpcHandle)
    (hsess : sessions.find? (fun s => s.id == some req.sessionId) = some sess)
    (hterm : terminals ≠ [])
    (hmatch : matchFn sess terminals = some t)
    (hatt : sess.status = some "attention") :
    CrossWindowIpc.checkForFocusRequest B (some f) now sessions terminals matchFn true
      = ⟨some f, f.mtime, []⟩
    ∧ CrossWindowIpc.checkForFocusRequest A (some f) now sessions terminals matchFn true
      = ⟨none, f.mtime,
          [CrossWindowIpc.Action.deleteFile, CrossWindowIpc.Action.windowActivation,
           CrossWindowIpc.Action.associate sess.id t.name,
           CrossWindowIpc.Action.terminalShow t.name,
           CrossWindowIpc.Action.terminalFocusCommand,
           CrossWindowIpc.Action.clearAttention sess.id]⟩ := by
  have hstale : (now - req.timestamp > 5000) = False :=
    eq_false (by omega)
  have hacts : CrossWindowIpc.handleFocusRequest sessions terminals matchFn true req
      = [CrossWindowIpc.Action.windowActivation,
         CrossWindowIpc.Action.associate sess.id t.name,
         CrossWindowIpc.Action.terminalShow t.name,
         CrossWindowIpc.Action.terminalFocusCommand,
         CrossWindowIpc.Action.clearAttention sess.id] := by
    have hte : terminals.isEmpty = false := by
      cases terminals with
      | nil => exact absurd rfl hterm
      | cons a l => rfl
    simp only [CrossWindowIpc.handleFocusRequest, hsess, hte, hmatch,
      CrossWindowIpc.clearAttentionIfNeededActions, hatt]
    simp
  constructor
  · have hBm : (f.mtime == B.lastMtime) = false := by
      simp [hB]
    have hBbeq : (req.vscodeIpcHandle == B.myIpcHandle) = false := by
      refine beq_eq_false_iff_ne.mpr ?_
      intro e
      exact hBne e.symm
    simp only [CrossWindowIpc.checkForFocusRequest, hBm, Bool.false_eq_true, if_false, hreq,
      hstale, htok, hBtruthy, Bool.and_self, hBbeq, Bool.true_and, if_true]
  · have hAm : (f.mtime == A.lastMtime) = false := by
      simp [hA]
    have hAtruthy : strTruthy A.myIpcHandle = true := by
      rw [hAid]
      exact htok
    have hAbeq : (req.vscodeIpcHandle == A.myIpcHandle) = true := by
      rw [hAid]
      exact beq_self_eq_true req.vscodeIpcHandle
    simp only [CrossWindowIpc.checkForFocusRequest, hAm, Bool.false_eq_true, if_false, hreq,
      hstale, htok, hAtruthy, Bool.and_self, hAbeq, Bool.true_and, if_true, hacts]

/-- C6 (witness): two concrete windows w1 and w2 polling the same fresh
request addressed to w1: w2 leaves the file and does nothing, w1 deletes
it first and then activates, focuses the terminal and clears
attention. -/
theorem focus_request_identity_token_routing_witness :
    CrossWindowIpc.checkForFocusRequest ⟨some "w2", 0, []⟩
        (some ⟨some ⟨"ppid-1001", "/projects/frontend", some "w1", none, 1000⟩, 5⟩) 2000
        [⟨some "ppid-1001", some "attention", some "permission_prompt", some "/projects/frontend", some "2024-01-01T00:00:00Z"⟩]
        [⟨"bash"⟩] (fun _ ts => ts.head?) true
      = ⟨some ⟨some ⟨"ppid-1001", "/projects/frontend", some "w1", none, 1000⟩, 5⟩, 5, []⟩
    ∧ CrossWindowIpc.checkForFocusRequest ⟨some "w1", 0, []⟩
        (some ⟨some ⟨"ppid-1001", "/projects/frontend", some "w1", none, 1000⟩, 5⟩) 2000
        [⟨some "ppid-1001", some "attention", some "permission_prompt", some "/projects/frontend", some "2024-01-01T00:00:00Z"⟩]
        [⟨"bash"⟩] (fun _ ts => ts.head?) true
      = ⟨none, 5,
          [CrossWindowIpc.Action.deleteFile, CrossWindowIpc.Action.windowActivation,
           CrossWindowIpc.Action.associate (some "ppid-1001") "bash",
           CrossWindowIpc.Action.terminalShow "bash",
           CrossWindowIpc.Action.terminalFocusCommand,
           CrossWindowIpc.Action.clearAttention (some "ppid-1001")]⟩ :=
  focus_request_identity_token_routing
    ⟨some "w1", 0, []⟩ ⟨some "w2", 0, []⟩
    ⟨some ⟨"ppid-1001", "/projects/frontend", some "w1", none, 1000⟩, 5⟩
    ⟨"ppid-1001", "/projects/frontend", some "w1", none, 1000⟩ 2000
    [⟨some "ppid-1001", some "attention", some "permission_prompt", some "/projects/frontend", some "2024-01-01T00:00:00Z"⟩]
    [⟨"bash"⟩] (fun _ ts => ts.head?)
    ⟨some "ppid-1001", some "attention", some "permission_prompt", some "/projects/frontend", some "2024-01-01T00:00:00Z"⟩
    ⟨"bash"⟩
    (by decide) (by decide) (by decide) (by decide) (by decide) (by decide)
    (by decide) (by decide) (by decide) (by decide) (by decide) (by decide)
